import Mathlib

/-!
Shallow embedding of the slgrok core (filter engine, tail controller,
message decoder, body renderer, markdown composer pieces) together with
theorems checking the natural-language specification against it.

Conventions of the embedding:
* Python str values are Lean String values; most string work happens on
  List Char via String.toList / String.mk.
* Python datetime instants are Int values counting seconds; timedelta
  values are Int second counts.  Only ordering and subtraction of
  instants are used by the code, so this is faithful.
* Python set of str is a List String kept duplicate free by the insert
  operation; only membership is observed.
* The Python regex engine (re.compile / re.search) is an external
  library; it is modelled as an oracle of type
  String -> Option (String -> Bool), where none models re.error being
  raised for a syntactically invalid pattern and some f models a
  compiled pattern whose unanchored search over a subject s returns
  f s.  Likewise json.loads / json.dumps pretty printing is modelled as
  an oracle String -> Option String (none models json.JSONDecodeError).
  All other library calls (base64.b64decode, bytes.decode with
  replacement, urllib.parse.urlparse path extraction, fnmatch.fnmatch,
  str.strip / rstrip / split / lower and the in operator) are embedded
  concretely below, restricted to ASCII case mapping where Python would
  also handle non-ASCII case folds.
-/

/-- ASCII whitespace as stripped by Python str.strip with no argument
(space, tab, newline, carriage return, vertical tab, form feed). -/
def isPyWs (c : Char) : Bool :=
  c = ' ' || c = '\t' || c = '\n' || c = '\r' || c = '\x0b' || c = '\x0c'

/-- Python str.strip on a character list: drop whitespace at both ends. -/
def pyStripL (l : List Char) : List Char :=
  ((l.dropWhile isPyWs).reverse.dropWhile isPyWs).reverse

/-- Python str.strip. -/
def pyStrip (s : String) : String := String.mk (pyStripL s.toList)

/-- Python str.lower (ASCII case mapping). -/
def pyLower (s : String) : String := String.mk (s.toList.map Char.toLower)

/-- Does the list start with the given needle? -/
def startsWithL : List Char → List Char → Bool
  | [], _ => true
  | _ :: _, [] => false
  | a :: as, b :: bs => a = b && startsWithL as bs

/-- Python substring containment (needle in hay) on character lists. -/
def containsL (needle : List Char) : List Char → Bool
  | [] => needle.isEmpty
  | c :: rest => startsWithL needle (c :: rest) || containsL needle rest

/-- Python substring containment (needle in hay) on strings. -/
def pyContains (needle hay : String) : Bool := containsL needle.toList hay.toList

/-- Does the string contain the given character? -/
def containsChar (s : String) (c : Char) : Bool := s.toList.contains c

/-- Python str.split on a single newline character: splits at every
occurrence and keeps empty pieces, so the result is always nonempty. -/
def splitOnNlL : List Char → List (List Char)
  | [] => [[]]
  | c :: rest =>
    if c = '\n' then [] :: splitOnNlL rest
    else
      match splitOnNlL rest with
      | [] => [[c]]
      | l :: ls => (c :: l) :: ls

/-- The suffix of the list after the first occurrence of the separator,
or none when the separator does not occur.  For a nonempty separator
this is Python sep in s followed by s.split(sep, 1)[1]. -/
def afterFirst (sep : List Char) : List Char → Option (List Char)
  | [] => none
  | c :: rest =>
    if startsWithL sep (c :: rest) then some ((c :: rest).drop sep.length)
    else afterFirst sep rest

/-- Python str.rstrip with argument a single carriage return: drop all
trailing carriage returns. -/
def rstripCr (l : List Char) : List Char :=
  (l.reverse.dropWhile (fun c => c = '\r')).reverse

/-- One hexadecimal digit, as accepted by the regex [0-9a-fA-F]. -/
def isHexDigitCh (c : Char) : Bool :=
  ('0' ≤ c && c ≤ '9') || ('a' ≤ c && c ≤ 'f') || ('A' ≤ c && c ≤ 'F')

/-- A nonempty run of hexadecimal digits, i.e. the anchored regex used
by the chunked-body heuristic. -/
def isHexToken (l : List Char) : Bool := !l.isEmpty && l.all isHexDigitCh

/-! ## Data model (slgrok.models.requests) -/

/-- HTTP headers as returned by the inspector: an insertion-ordered
mapping from header name to the ordered list of values.  Python stores
this as a dict, so keys are unique and lookup is case sensitive. -/
structure HttpHeaders where
  root : List (String × List String)
deriving DecidableEq

/-- Python dict.get(k, default []) over the header mapping: the value
list of the entry whose key equals k exactly, or the empty list. -/
def HttpHeaders.get (h : HttpHeaders) (k : String) : List String :=
  match h.root.find? (fun p => p.1 == k) with
  | some p => p.2
  | none => []

/-- Incoming HTTP request data. -/
structure RequestData where
  method : String
  proto : String
  headers : HttpHeaders
  uri : String
  raw : Option String
deriving DecidableEq

/-- HTTP response data.  Status codes are machine-read HTTP codes and
hence non-negative, so they are modelled as Nat. -/
structure ResponseData where
  status : String
  status_code : Nat
  proto : String
  headers : HttpHeaders
  raw : Option String
deriving DecidableEq

/-- A captured request/response pair from the inspector. -/
structure CapturedRequest where
  uri : String
  id : String
  tunnel_name : String
  remote_addr : String
  start : Int
  duration : Int
  request : RequestData
  response : Option ResponseData
deriving DecidableEq

/-! ## Filter models (slgrok.models.filters) -/

/-- Time window unit: seconds, minutes or hours. -/
inductive TimeUnit where
  | s
  | m
  | h
deriving DecidableEq

/-- Time window for filtering requests. -/
structure TimeWindow where
  value : Nat
  unit : TimeUnit
deriving DecidableEq

/-- TimeWindow.to_timedelta, expressed as a count of seconds. -/
def TimeWindow.toSeconds (w : TimeWindow) : Int :=
  match w.unit with
  | TimeUnit.s => (w.value : Int)
  | TimeUnit.m => 60 * (w.value : Int)
  | TimeUnit.h => 3600 * (w.value : Int)

/-- Filter for HTTP status codes. -/
structure StatusCodeFilter where
  exact : List Nat
  ranges : List String
  errors_only : Bool
deriving DecidableEq

/-- The hundred bucket string of a status code: the decimal rendering of
code / 100 followed by the letters xx. -/
def bucketString (code : Nat) : String := toString (code / 100) ++ "xx"

/-- StatusCodeFilter.matches, translated clause for clause from the
source: errors_only rejects codes below 400; an unconstrained filter
accepts everything else; otherwise exact membership or range-bucket
membership decides. -/
def StatusCodeFilter.matches (f : StatusCodeFilter) (status_code : Nat) : Bool :=
  if f.errors_only && decide (status_code < 400) then false
  else if f.exact.isEmpty && f.ranges.isEmpty then true
  else if f.exact.contains status_code then true
  else f.ranges.contains (bucketString status_code)

/-- Combined filters for request queries. -/
structure RequestFilters where
  limit : Option Nat
  status : Option StatusCodeFilter
  path_pattern : Option String
  domain : Option String
  tunnel_name : Option String
  time_window : Option TimeWindow
deriving DecidableEq

/-! ## Path extraction (urllib.parse.urlparse(...).path)

The inspector only reads the path field of the parse result, so the
embedding reproduces exactly the steps of urlsplit plus the trailing
parameter split of urlparse: removal of tab, carriage return and
newline characters anywhere in the input, stripping of leading
control-or-space characters, scheme removal, network-location removal
after a leading double slash, fragment split, query split, and the
semicolon parameter split on the last path segment. -/

/-- Split a character list at the first occurrence of the character:
some (before, after) when present, none otherwise. -/
def breakAtChar (c : Char) : List Char → Option (List Char × List Char)
  | [] => none
  | x :: rest =>
    if x = c then some ([], rest)
    else
      match breakAtChar c rest with
      | some p => some (x :: p.1, p.2)
      | none => none

theorem breakAtChar_length {c : Char} :
    ∀ {l a b : List Char}, breakAtChar c l = some (a, b) →
      l.length = a.length + 1 + b.length := by
  intro l
  induction l with
  | nil => intro a b h; simp [breakAtChar] at h
  | cons x rest ih =>
    intro a b h
    rw [breakAtChar] at h
    by_cases hx : x = c
    · rw [if_pos hx] at h
      injection h with h1
      injection h1 with h2 h3
      subst h2
      subst h3
      simp
      omega
    · rw [if_neg hx] at h
      cases hrec : breakAtChar c rest with
      | none => rw [hrec] at h; exact absurd h (by simp)
      | some p =>
        rw [hrec] at h
        injection h with h1
        injection h1 with h2 h3
        subst h2
        subst h3
        have hlen := ih (a := p.1) (b := p.2) (by rw [hrec])
        simp [hlen]
        omega

/-- Characters the tolerant parser removes anywhere in the URL. -/
def urlRemoveUnsafe (l : List Char) : List Char :=
  l.filter (fun c => !(c = '\t' || c = '\r' || c = '\n'))

/-- Leading C0-control-or-space stripping. -/
def urlLstrip (l : List Char) : List Char :=
  l.dropWhile (fun c => c.toNat ≤ 32)

/-- Characters allowed in a URL scheme after the first letter. -/
def isSchemeChar (c : Char) : Bool :=
  c.isAlpha || c.isDigit || c = '+' || c = '-' || c = '.'

/-- Drop a leading scheme: it must sit before the first colon, be
nonempty, start with an ASCII letter, and consist of scheme
characters only; otherwise the URL is unchanged. -/
def splitScheme (l : List Char) : List Char :=
  match breakAtChar ':' l with
  | some p =>
    match p.1 with
    | [] => l
    | c :: _ => if c.isAlpha && p.1.all isSchemeChar then p.2 else l
  | none => l

/-- Drop a leading network location: after a double slash everything up
to the first slash, question mark or hash belongs to the netloc. -/
def splitNetloc (l : List Char) : List Char :=
  match l with
  | '/' :: '/' :: rest =>
    rest.dropWhile (fun c => !(c = '/' || c = '?' || c = '#'))
  | _ => l

/-- Keep only the part before the first hash. -/
def dropFragment (l : List Char) : List Char := l.takeWhile (fun c => c ≠ '#')

/-- Keep only the part before the first question mark. -/
def dropQuery (l : List Char) : List Char := l.takeWhile (fun c => c ≠ '?')

/-- Split off the last slash-separated segment: the pair of the part up
to and including the last slash and the remaining segment.  When the
list has no slash the first component is empty. -/
def lastSegSplit (l : List Char) : List Char × List Char :=
  match breakAtChar '/' l.reverse with
  | some p => (p.2.reverse ++ ['/'], p.1.reverse)
  | none => ([], l)

/-- Drop the semicolon parameters of the last path segment, as urlparse
does on top of urlsplit. -/
def dropParams (l : List Char) : List Char :=
  let pr := lastSegSplit l
  if pr.1.isEmpty then
    match breakAtChar ';' l with
    | some p => p.1
    | none => l
  else
    match breakAtChar ';' pr.2 with
    | some p => pr.1 ++ p.1
    | none => l

/-- The path component of a URI, as computed by urlparse(uri).path. -/
def urlparsePath (uri : String) : String :=
  let l0 := urlLstrip (urlRemoveUnsafe uri.toList)
  let l1 := splitScheme l0
  let l2 := splitNetloc l1
  let l3 := dropQuery (dropFragment l2)
  String.mk (dropParams l3)

/-! ## Shell glob matching (fnmatch.fnmatch on a POSIX platform)

fnmatch translates the pattern into an anchored regex: star matches any
character run, question mark any single character, and a bracketed
character class matches one character, with an exclamation mark
negating the class, a closing bracket listed first taken literally, a
trailing hyphen taken literally, and hyphen ranges compared by code
point (an inverted range matches nothing).  An unterminated bracket is
a literal bracket.  On POSIX the case of subject and pattern is kept
as is. -/

/-- One compiled glob pattern element.  A character class is kept as a
negation flag plus closed code-point ranges; single characters are
degenerate ranges. -/
inductive GlobItem where
  | star
  | anyChar
  | lit (c : Char)
  | cls (neg : Bool) (items : List (Char × Char))
deriving DecidableEq

/-- Items of a character class body: a hyphen between two characters
forms a range, anything else stands for itself. -/
def classItems : List Char → List (Char × Char)
  | [] => []
  | a :: '-' :: b :: rest => (a, b) :: classItems rest
  | a :: rest => (a, a) :: classItems rest

/-- Does the class body start with the negation marker? -/
def classNeg (l : List Char) : Bool :=
  match l with
  | '!' :: _ => true
  | _ => false

/-- The class content after an optional negation marker. -/
def classBody (l : List Char) : List Char :=
  if classNeg l then l.tail else l

/-- Is the first content character a literal closing bracket? -/
def classLit (l : List Char) : Bool :=
  match (classBody l).head? with
  | some ']' => true
  | _ => false

/-- The part of the class scanned for the terminating bracket. -/
def classScan (l : List Char) : List Char :=
  if classLit l then (classBody l).tail else classBody l

/-- Parse a character class immediately after an opening bracket:
returns the parsed class and the rest of the pattern after the closing
bracket, or none when the class is unterminated. -/
def parseClass (l : List Char) : Option ((Bool × List (Char × Char)) × List Char) :=
  match breakAtChar ']' (classScan l) with
  | some p =>
    some ((classNeg l, classItems (if classLit l then ']' :: p.1 else p.1)), p.2)
  | none => none

theorem classScan_length (l : List Char) : (classScan l).length ≤ l.length := by
  have hb : (classBody l).length ≤ l.length := by
    unfold classBody
    split
    · cases l <;> simp
    · exact le_refl _
  unfold classScan
  split
  · have ht : (classBody l).tail.length ≤ (classBody l).length := by
      cases classBody l <;> simp
    omega
  · exact hb

theorem parseClass_rem_length {l : List Char} {x : Bool × List (Char × Char)}
    {rem : List Char} (h : parseClass l = some (x, rem)) : rem.length < l.length + 1 := by
  unfold parseClass at h
  cases hb : breakAtChar ']' (classScan l) with
  | none => rw [hb] at h; exact absurd h (by simp)
  | some p =>
    rw [hb] at h
    injection h with h1
    injection h1 with h2 h3
    have hlen := breakAtChar_length hb
    have hscan := classScan_length l
    subst h3
    omega

/-- Compile a glob pattern into items; an opening bracket with no
matching close is a literal bracket.  The fuel argument makes the
recursion structural so that evaluation reduces inside the kernel;
every step consumes at least one pattern character, so any fuel of at
least the pattern length gives the same result. -/
def parseGlobF : Nat → List Char → List GlobItem
  | 0, _ => []
  | _ + 1, [] => []
  | fuel + 1, '*' :: rest => GlobItem.star :: parseGlobF fuel rest
  | fuel + 1, '?' :: rest => GlobItem.anyChar :: parseGlobF fuel rest
  | fuel + 1, '[' :: rest =>
    (match parseClass rest with
     | some pr => GlobItem.cls pr.1.1 pr.1.2 :: parseGlobF fuel pr.2
     | none => GlobItem.lit '[' :: parseGlobF fuel rest)
  | fuel + 1, c :: rest => GlobItem.lit c :: parseGlobF fuel rest

/-- Compile a glob pattern into items. -/
def parseGlob (l : List Char) : List GlobItem := parseGlobF l.length l

/-- Run compiled glob items against a subject, anchored at both ends.
The fuel argument makes the recursion structural; every step consumes
a pattern item or a subject character, so any fuel above the sum of
both lengths gives the same result. -/
def globItemsF : Nat → List GlobItem → List Char → Bool
  | 0, _, _ => false
  | _ + 1, [], s => s.isEmpty
  | fuel + 1, GlobItem.star :: p, s =>
    globItemsF fuel p s ||
      (match s with
       | [] => false
       | _ :: s2 => globItemsF fuel (GlobItem.star :: p) s2)
  | fuel + 1, GlobItem.anyChar :: p, s =>
    (match s with
     | [] => false
     | _ :: s2 => globItemsF fuel p s2)
  | fuel + 1, GlobItem.lit c :: p, s =>
    (match s with
     | [] => false
     | c2 :: s2 => c = c2 && globItemsF fuel p s2)
  | fuel + 1, GlobItem.cls neg items :: p, s =>
    (match s with
     | [] => false
     | c :: s2 => (items.any (fun r => r.1 ≤ c && c ≤ r.2) != neg) && globItemsF fuel p s2)

/-- Run compiled glob items against a subject. -/
def globItems (p : List GlobItem) (s : List Char) : Bool :=
  globItemsF (p.length + s.length + 1) p s

/-- fnmatch.fnmatch(s, pat) on a POSIX platform. -/
def fnmatchB (s pat : String) : Bool := globItems (parseGlob pat.toList) s.toList

/-! ## Inspector service (slgrok.services.inspector)

Predicates and the filter pipeline.  The regex engine is an oracle
argument re; the wall clock datetime.now is an explicit Int argument. -/

/-- InspectorService._matches_path: glob when the pattern holds a glob
metacharacter, otherwise regex search over the extracted path with a
literal substring fallback when compiling raises re.error (modelled by
the oracle returning none). -/
def matches_path (re : String → Option (String → Bool)) (uri pattern : String) : Bool :=
  let path := urlparsePath uri
  if containsChar pattern '*' || containsChar pattern '?' then fnmatchB path pattern
  else
    match re pattern with
    | some search => search path
    | none => pyContains pattern path

/-- InspectorService._matches_domain: look up the Host header entry
(exact dict key), and when its value list is nonempty test whether the
lowercased filter string occurs in the lowercased first value. -/
def matches_domain (r : CapturedRequest) (domain : String) : Bool :=
  match r.request.headers.get "Host" with
  | [] => false
  | v :: _ => pyContains (pyLower domain) (pyLower v)

/-- The status stage of _apply_filters keeps a record only when it has
a response whose code the status filter accepts. -/
def statusKeep (sf : StatusCodeFilter) (r : CapturedRequest) : Bool :=
  match r.response with
  | none => false
  | some resp => sf.matches resp.status_code

/-- InspectorService._apply_filters: the four optional predicate stages
applied in sequence, each as a list comprehension over the survivors of
the previous stage.  now is the instant sampled once for the
time-window cutoff. -/
def apply_filters (re : String → Option (String → Bool)) (now : Int)
    (requests : List CapturedRequest) (fs : RequestFilters) : List CapturedRequest :=
  let r1 := match fs.status with
    | some sf => requests.filter (statusKeep sf)
    | none => requests
  let r2 := match fs.path_pattern with
    | some pat => r1.filter (fun r => matches_path re r.request.uri pat)
    | none => r1
  let r3 := match fs.domain with
    | some d => r2.filter (fun r => matches_domain r d)
    | none => r2
  match fs.time_window with
  | some w => r3.filter (fun r => decide (now - w.toSeconds ≤ r.start))
  | none => r3

/-- InspectorService.get_requests: fetched is the repository result
(already pre-filtered by tunnel name); local filters run first and the
limit truncates the survivors afterwards. -/
def get_requests (re : String → Option (String → Bool)) (now : Int)
    (fetched : List CapturedRequest) (fs : RequestFilters) : List CapturedRequest :=
  let filtered := apply_filters re now fetched fs
  match fs.limit with
  | some n => filtered.take n
  | none => filtered

/-- Insert an id into the seen set (Python set.add); the list stays
duplicate free. -/
def addSeen (seen : List String) (i : String) : List String :=
  if seen.contains i then seen else i :: seen

/-- One poll iteration of InspectorService.tail_requests: records whose
id is already seen are dropped, the filter engine runs on the rest, and
each survivor has its id added to seen before being yielded.  Returns
the new seen set and the records yielded in this iteration. -/
def tail_step (re : String → Option (String → Bool)) (fs : RequestFilters) (now : Int)
    (seen : List String) (snapshot : List CapturedRequest) :
    List String × List CapturedRequest :=
  let newReqs := snapshot.filter (fun r => !seen.contains r.id)
  let filtered := apply_filters re now newReqs fs
  (filtered.foldl (fun s r => addSeen s r.id) seen, filtered)

/-- A finite run of InspectorService.tail_requests: the seen set starts
from the ids of the initial snapshot (which is never yielded), then
each poll contributes its yields in order.  polls pairs the sampled
instant of each iteration with the snapshot fetched then.  Returns the
final seen set and the concatenation of all yielded records. -/
def tail_run (re : String → Option (String → Bool)) (fs : RequestFilters)
    (initial : List CapturedRequest) (polls : List (Int × List CapturedRequest)) :
    List String × List CapturedRequest :=
  let seen0 := initial.foldl (fun s r => addSeen s r.id) []
  polls.foldl
    (fun acc p =>
      let stepped := tail_step re fs p.1 acc.1 p.2
      (stepped.1, acc.2 ++ stepped.2))
    (seen0, [])

/-! ## Message decoder (slgrok.services.formatter, decoding half)

base64.b64decode and bytes.decode("utf-8", errors="replace") are
embedded concretely.  b64decode on a str first requires pure ASCII
input, then runs the tolerant binascii decoder: characters outside the
alphabet are skipped, a quad of alphabet characters emits three bytes,
padding that completes a quad of at least two data characters emits the
leftover bytes and ends the decode, and leftover data characters at the
end of input raise (modelled by none). -/

/-- The value of a base64 alphabet character, none for other chars. -/
def b64Val (c : Char) : Option Nat :=
  if 'A' ≤ c && c ≤ 'Z' then some (c.toNat - 65)
  else if 'a' ≤ c && c ≤ 'z' then some (c.toNat - 97 + 26)
  else if '0' ≤ c && c ≤ '9' then some (c.toNat - 48 + 52)
  else if c = '+' then some 62
  else if c = '/' then some 63
  else none

/-- The tolerant base64 scanner: quadPos counts data characters in the
current quad, leftchar accumulates their bits, pads counts padding
characters pending on the current quad, acc holds the output bytes in
reverse order. -/
def b64Core : List Char → Nat → Nat → Nat → List Nat → Option (List Nat)
  | [], quadPos, _, _, acc => if quadPos = 0 then some acc.reverse else none
  | c :: rest, quadPos, leftchar, pads, acc =>
    if c = '=' then
      if 2 ≤ quadPos then
        if 4 ≤ quadPos + pads + 1 then
          if quadPos = 2 then some ((leftchar / 16 % 256 :: acc).reverse)
          else some ((leftchar / 4 % 256 :: leftchar / 1024 % 256 :: acc).reverse)
        else b64Core rest quadPos leftchar (pads + 1) acc
      else b64Core rest quadPos leftchar pads acc
    else
      match b64Val c with
      | none => b64Core rest quadPos leftchar pads acc
      | some v =>
        let lc2 := leftchar * 64 + v
        if quadPos = 3 then
          b64Core rest 0 0 0 (lc2 % 256 :: lc2 / 256 % 256 :: lc2 / 65536 % 256 :: acc)
        else b64Core rest (quadPos + 1) lc2 0 acc

/-- base64.b64decode on a str argument: ASCII check then the tolerant
scanner; none models the raised binascii.Error / ValueError. -/
def b64decode (s : String) : Option (List Nat) :=
  if s.toList.all (fun c => c.toNat < 128) then b64Core s.toList 0 0 0 [] else none

/-- The replacement character emitted for undecodable byte sequences. -/
def replChar : Char := Char.ofNat 0xFFFD

/-- Is the byte a UTF-8 continuation byte? -/
def isCont (b : Nat) : Bool := 128 ≤ b && b ≤ 191

/-- Allowed first continuation byte of a three-byte sequence. -/
def cont1ok3 (b b2 : Nat) : Bool :=
  if b = 224 then 160 ≤ b2 && b2 ≤ 191
  else if b = 237 then 128 ≤ b2 && b2 ≤ 159
  else isCont b2

/-- Allowed first continuation byte of a four-byte sequence. -/
def cont1ok4 (b b2 : Nat) : Bool :=
  if b = 240 then 144 ≤ b2 && b2 ≤ 191
  else if b = 244 then 128 ≤ b2 && b2 ≤ 143
  else isCont b2

/-- bytes.decode("utf-8", errors="replace"): a strict UTF-8 decoder
that replaces each maximal prefix of a valid sequence that cannot be
completed with one replacement character and resumes at the offending
byte. -/
def utf8Decode : List Nat → List Char
  | [] => []
  | b :: rest =>
    if b < 128 then Char.ofNat b :: utf8Decode rest
    else if 194 ≤ b && b ≤ 223 then
      match rest with
      | [] => [replChar]
      | b2 :: rest2 =>
        if isCont b2 then Char.ofNat ((b - 192) * 64 + (b2 - 128)) :: utf8Decode rest2
        else replChar :: utf8Decode (b2 :: rest2)
    else if 224 ≤ b && b ≤ 239 then
      match rest with
      | [] => [replChar]
      | b2 :: rest2 =>
        if cont1ok3 b b2 then
          match rest2 with
          | [] => [replChar]
          | b3 :: rest3 =>
            if isCont b3 then
              Char.ofNat ((b - 224) * 4096 + (b2 - 128) * 64 + (b3 - 128)) :: utf8Decode rest3
            else replChar :: utf8Decode (b3 :: rest3)
        else replChar :: utf8Decode (b2 :: rest2)
    else if 240 ≤ b && b ≤ 244 then
      match rest with
      | [] => [replChar]
      | b2 :: rest2 =>
        if cont1ok4 b b2 then
          match rest2 with
          | [] => [replChar]
          | b3 :: rest3 =>
            if isCont b3 then
              match rest3 with
              | [] => [replChar]
              | b4 :: rest4 =>
                if isCont b4 then
                  Char.ofNat ((b - 240) * 262144 + (b2 - 128) * 4096 +
                    (b3 - 128) * 64 + (b4 - 128)) :: utf8Decode rest4
                else replChar :: utf8Decode (b4 :: rest4)
            else replChar :: utf8Decode (b3 :: rest3)
        else replChar :: utf8Decode (b2 :: rest2)
    else replChar :: utf8Decode rest

/-- FormatterService._decode_body: absent or empty input yields empty
text, a failed base64 decode yields empty text, a successful decode is
interpreted as UTF-8 with replacement.  The function is total: no
failure escapes to the caller. -/
def decode_body (raw : Option String) : String :=
  match raw with
  | none => ""
  | some s =>
    if s = "" then ""
    else
      match b64decode s with
      | some bytes => String.mk (utf8Decode bytes)
      | none => ""

/-- FormatterService._extract_http_body: the suffix after the first
CRLFCRLF separator when one occurs, otherwise the suffix after the
first LFLF separator, otherwise the whole message. -/
def extract_http_body (raw_message : String) : String :=
  match afterFirst ['\r', '\n', '\r', '\n'] raw_message.toList with
  | some rest => String.mk rest
  | none =>
    match afterFirst ['\n', '\n'] raw_message.toList with
    | some rest => String.mk rest
    | none => raw_message

/-! ## Body renderer (slgrok.services.formatter, rendering half)

json.loads followed by json.dumps with two-space indentation is the jp
oracle: none models json.JSONDecodeError, some r a successful
pretty print. -/

/-- Options controlling output formatting. -/
structure FormatOptions where
  pretty_print : Bool := false
  truncate : Option Nat := none
  show_headers : Bool := true
  headers_filter : Option (List String) := none
  debug : Bool := false
deriving DecidableEq

/-- FormatterService._is_chunked_body: on the stripped body split at
newlines, at least two lines, first stripped line a pure hex token and
last stripped line exactly the digit zero. -/
def is_chunked_body (body : String) : Bool :=
  let lines := splitOnNlL (pyStripL body.toList)
  if lines.length < 2 then false
  else
    match lines with
    | [] => false
    | first :: _ =>
      isHexToken (pyStripL first) && pyStripL (lines.getLastD []) == ['0']

/-- FormatterService._try_format_json via the jp oracle: the pretty
printed text when parsing succeeds, the original otherwise. -/
def try_format_json (jp : String → Option String) (text : String) : String :=
  match jp text with
  | some r => r
  | none => text

/-- The line walk of FormatterService._format_chunked_body: hex chunk
size lines (including the terminating zero) are dropped; data-prefixed
lines have their payload pretty printed when it parses, with
continuation lines indented six spaces; other lines pass through with
trailing carriage returns removed. -/
def processChunkLines (jp : String → Option String) : List (List Char) → List (List Char)
  | [] => []
  | ln :: rest =>
    let line := rstripCr ln
    if isHexToken (pyStripL line) then processChunkLines jp rest
    else if startsWithL ['d', 'a', 't', 'a', ':'] line then
      let dc := String.mk (pyStripL (line.drop 5))
      let fd := try_format_json jp dc
      if fd ≠ dc then
        match splitOnNlL fd.toList with
        | [] => processChunkLines jp rest
        | j1 :: js =>
          (('d' :: 'a' :: 't' :: 'a' :: ':' :: ' ' :: j1) ::
              js.map (fun j => [' ', ' ', ' ', ' ', ' ', ' '] ++ j)) ++
            processChunkLines jp rest
      else
        ('d' :: 'a' :: 't' :: 'a' :: ':' :: ' ' :: fd.toList) :: processChunkLines jp rest
    else line :: processChunkLines jp rest

/-- Drop trailing lines that are empty after stripping. -/
def stripTrailingBlank (ls : List (List Char)) : List (List Char) :=
  (ls.reverse.dropWhile (fun l => (pyStripL l).isEmpty)).reverse

/-- FormatterService._format_chunked_body (the content type argument is
unused in the source). -/
def format_chunked_body (jp : String → Option String) (body : String) : String :=
  let ls := processChunkLines jp (splitOnNlL body.toList)
  String.intercalate "\n" ((stripTrailingBlank ls).map String.mk)

/-- FormatterService._format_body: when pretty printing is on, chunked
bodies are reconstructed and json content types are pretty printed
(keeping the body on parse failure); afterwards the optional truncation
keeps the first truncate characters and appends a marker naming the
original body's character count. -/
def format_body (jp : String → Option String) (body content_type : String)
    (options : FormatOptions) : String :=
  let result :=
    if options.pretty_print then
      if is_chunked_body body then format_chunked_body jp body
      else if pyContains "json" (pyLower content_type) then
        match jp body with
        | some r => r
        | none => body
      else body
    else body
  match options.truncate with
  | some t =>
    if t < result.length then
      result.take t ++ "\n... (truncated, " ++ toString body.length ++ " total chars)"
    else result
  | none => result

/-! ## Markdown composer header rendering -/

/-- Header names whose values are masked. -/
def maskNames : List String := ["authorization", "x-api-key", "cookie", "set-cookie"]

/-- The loop body of FormatterService._format_headers: entries are
visited in stored order; a name filter keeps only case-insensitive
matches; sensitive names display a single mask token; every displayed
value becomes one name-prefixed line. -/
def formatHeaderLines (filter_list : Option (List String)) :
    List (String × List String) → List String
  | [] => []
  | (name, values) :: rest =>
    if (match filter_list with
        | some fl => !fl.any (fun f => pyLower f == pyLower name)
        | none => false) then
      formatHeaderLines filter_list rest
    else
      let display_values := if maskNames.contains (pyLower name) then ["***"] else values
      display_values.map (fun v => name ++ ": " ++ v) ++ formatHeaderLines filter_list rest

/-- FormatterService._format_headers. -/
def format_headers (headers : HttpHeaders) (filter_list : Option (List String)) :
    List String :=
  formatHeaderLines filter_list headers.root

/-! ## Spec-side definitions

Definitions in this section follow the wording of the specification
claims (rather than the source) and exist to be compared with the
source-side definitions above. -/

/-- The status acceptance condition in the claim's words: with
errorsOnly set no code below 400 passes; with both the exact set and
the ranges set empty everything else passes; otherwise membership in
the exact set or of the hundred bucket in the ranges set decides. -/
def statusSpecMatches (f : StatusCodeFilter) (code : Nat) : Prop :=
  ¬(f.errors_only = true ∧ code < 400) ∧
    ((f.exact = [] ∧ f.ranges = []) ∨ code ∈ f.exact ∨ bucketString code ∈ f.ranges)

instance (f : StatusCodeFilter) (code : Nat) : Decidable (statusSpecMatches f code) := by
  unfold statusSpecMatches
  infer_instance

/-- The domain predicate in the claim's words: the Host header is found
comparing header names case-insensitively, and the filter string must
occur case-insensitively in its first value. -/
def domainSpecMatches (r : CapturedRequest) (domain : String) : Bool :=
  match r.request.headers.root.find? (fun p => pyLower p.1 == pyLower "Host") with
  | some p =>
    match p.2 with
    | [] => false
    | v :: _ => pyContains (pyLower domain) (pyLower v)
  | none => false

/-- Is the header name kept by the optional allowlist
(case-insensitive membership, absent list keeps everything)? -/
def headerAllowed (fl : Option (List String)) (name : String) : Bool :=
  match fl with
  | some l => l.any (fun f => pyLower f == pyLower name)
  | none => true

/-- Is the header name one of the masked sensitive names? -/
def sensitiveHeader (name : String) : Bool := maskNames.contains (pyLower name)

/-- The lines one header entry contributes, in the claim's words: a
skipped entry contributes nothing, a sensitive entry contributes one
line with the mask token, any other entry contributes one
name-prefixed line per value. -/
def renderHeaderEntry (fl : Option (List String)) (e : String × List String) :
    List String :=
  if headerAllowed fl e.1 then
    if sensitiveHeader e.1 then [e.1 ++ ": " ++ "***"]
    else e.2.map (fun v => e.1 ++ ": " ++ v)
  else []

/-- The conjunction of the four optional predicates of the filter
engine, evaluated on one record. -/
def keepAll (re : String → Option (String → Bool)) (now : Int) (fs : RequestFilters)
    (r : CapturedRequest) : Bool :=
  (match fs.status with
   | some sf => statusKeep sf r
   | none => true) &&
  (match fs.path_pattern with
   | some pat => matches_path re r.request.uri pat
   | none => true) &&
  (match fs.domain with
   | some d => matches_domain r d
   | none => true) &&
  (match fs.time_window with
   | some w => decide (now - w.toSeconds ≤ r.start)
   | none => true)

/-! ## Concrete fixtures used by witnesses and counterexamples -/

/-- A regex oracle on which every pattern fails to compile. -/
def reNone : String → Option (String → Bool) := fun _ => none

/-- A json oracle on which every payload fails to parse. -/
def jpNone : String → Option String := fun _ => none

/-- A request with the given URI and headers. -/
def mkReq (u : String) (hs : List (String × List String)) : RequestData :=
  { method := "GET", proto := "HTTP/1.1", headers := ⟨hs⟩, uri := u, raw := none }

/-- A captured record with the given id, URI, request headers and
optional response status code. -/
def mkRec (i u : String) (hs : List (String × List String)) (resp : Option Nat) :
    CapturedRequest :=
  { uri := u, id := i, tunnel_name := "t0", remote_addr := "127.0.0.1", start := 0,
    duration := 0, request := mkReq u hs,
    response := resp.map (fun c =>
      { status := toString c, status_code := c, proto := "HTTP/1.1",
        headers := ⟨[]⟩, raw := none }) }

/-- A status filter accepting the 4xx bucket. -/
def sf4xx : StatusCodeFilter := ⟨[], ["4xx"], false⟩

/-- A status filter with only errorsOnly set. -/
def sfErrOnly : StatusCodeFilter := ⟨[], [], true⟩

/-- Filters holding only the errorsOnly status filter. -/
def fsErrOnly : RequestFilters := ⟨none, some sfErrOnly, none, none, none, none⟩

/-- Filters with the errorsOnly status filter and a limit of one. -/
def fsErrLimit1 : RequestFilters := ⟨some 1, some sfErrOnly, none, none, none, none⟩

/-- Completely empty filters. -/
def fsNoFilters : RequestFilters := ⟨none, none, none, none, none, none⟩

/-- Records used in witnesses. -/
def recA200 : CapturedRequest := mkRec "a" "/a" [] (some 200)

def recB404 : CapturedRequest := mkRec "b" "/b" [] (some 404)

def recC500 : CapturedRequest := mkRec "c" "/c" [] (some 500)

/-- A record whose response has not arrived yet, and the same capture
once its response has arrived (same id). -/
def recPendA : CapturedRequest := mkRec "a" "/a" [] none

def recDoneA : CapturedRequest := mkRec "a" "/a" [] (some 500)

/-- A record whose Host header key is stored in lower case. -/
def recLowerHost : CapturedRequest := mkRec "h1" "/x" [("host", ["api.example.com"])] (some 200)

/-! ## Theorems -/

theorem matches_iff_spec (f : StatusCodeFilter) (c : Nat) :
    f.matches c = true ↔ statusSpecMatches f c := by
  unfold StatusCodeFilter.matches statusSpecMatches
  by_cases he : f.errors_only = true ∧ c < 400
  · have hb : (f.errors_only && decide (c < 400)) = true := by
      simp [he.1, he.2]
    simp [hb, he]
  · have hb : (f.errors_only && decide (c < 400)) = false := by
      by_cases h1 : f.errors_only = true
      · have h2 : ¬c < 400 := fun hc => he ⟨h1, hc⟩
        simp [h2]
      · simp [Bool.not_eq_true] at h1
        simp [h1]
    rw [hb]
    simp only [Bool.false_eq_true, if_false]
    by_cases hemp : f.exact = [] ∧ f.ranges = []
    · have : f.exact.isEmpty && f.ranges.isEmpty = true := by
        simp [hemp.1, hemp.2]
      simp [this, he, hemp]
    · have : (f.exact.isEmpty && f.ranges.isEmpty) = false := by
        rcases Decidable.not_and_iff_or_not.mp hemp with h1 | h1 <;>
          simp [List.isEmpty_iff, h1]
      rw [this]
      simp only [Bool.false_eq_true, if_false]
      by_cases hx : f.exact.contains c = true
      · have hm : c ∈ f.exact := by
          simpa using hx
        simp [hx, he, hm]
      · have hm : c ∉ f.exact := by
          simpa using hx
        simp [hx, he, hm, hemp]

/-- Claim C1: the status predicate rejects a record with no response;
otherwise, with errorsOnly set, codes below 400 are rejected; an
otherwise unconstrained filter accepts; otherwise membership in the
exact set or of the hundred-bucket string in the ranges set decides.
With errorsOnly set no code below 400 is ever accepted, whatever the
exact and ranges contents. -/
theorem c1_status_predicate (f : StatusCodeFilter) (r : CapturedRequest) :
    (r.response = none → statusKeep f r = false) ∧
    (∀ resp, r.response = some resp →
      (statusKeep f r = true ↔ statusSpecMatches f resp.status_code)) ∧
    (f.errors_only = true → ∀ c, c < 400 → f.matches c = false) := by
  refine ⟨?_, ?_, ?_⟩
  · intro h
    simp [statusKeep, h]
  · intro resp h
    simp only [statusKeep, h]
    exact matches_iff_spec f resp.status_code
  · intro he c hc
    unfold StatusCodeFilter.matches
    simp [he, hc]

theorem c1_status_predicate_witness :
    statusKeep sf4xx (mkRec "w" "/w" [] (some 404)) = true ∧
    sfErrOnly.matches 399 = false := by
  constructor
  · exact ((c1_status_predicate sf4xx (mkRec "w" "/w" [] (some 404))).2.1 _ rfl).mpr
      (by decide)
  · exact (c1_status_predicate sfErrOnly recA200).2.2 rfl 399 (by decide)

/-- Claim C4: with a glob metacharacter in the pattern the extracted
path is glob-matched; otherwise a compiling pattern is searched as a
regex over the path; a non-compiling pattern degrades to substring
containment.  The function is total, so no pattern can raise. -/
theorem c4_path_pattern_dispatch (re : String → Option (String → Bool))
    (uri pattern : String) :
    ((containsChar pattern '*' || containsChar pattern '?') = true →
      matches_path re uri pattern = fnmatchB (urlparsePath uri) pattern) ∧
    (∀ f, (containsChar pattern '*' || containsChar pattern '?') = false →
      re pattern = some f → matches_path re uri pattern = f (urlparsePath uri)) ∧
    ((containsChar pattern '*' || containsChar pattern '?') = false →
      re pattern = none →
      matches_path re uri pattern = pyContains pattern (urlparsePath uri)) := by
  refine ⟨?_, ?_, ?_⟩
  · intro h
    simp [matches_path, h]
  · intro f h hr
    simp [matches_path, h, hr]
  · intro h hr
    simp [matches_path, h, hr]

theorem c4_path_pattern_dispatch_witness :
    matches_path reNone "/api/v1/devices?x=1" "/api/v1/*" = true ∧
    matches_path reNone "/a(b/c" "(b" = true := by
  constructor
  · rw [(c4_path_pattern_dispatch reNone "/api/v1/devices?x=1" "/api/v1/*").1 (by decide)]
    decide
  · rw [(c4_path_pattern_dispatch reNone "/a(b/c" "(b").2.2 (by decide) rfl]
    decide

/-- Claim C5 counterexample: the claim asks for case-insensitive header
name comparison, but the source looks the Host header up by exact dict
key; a record whose Host key is stored in lower case satisfies the
claim's predicate yet is rejected by the code. -/
theorem c5_counterexample :
    recLowerHost.request.headers.root = [("host", ["api.example.com"])] ∧
    domainSpecMatches recLowerHost "example" = true ∧
    matches_domain recLowerHost "example" = false := by
  refine ⟨rfl, by decide, by decide⟩

/-- Claim C5 amended: a record matches a domain filter exactly when an
entry stored under the exact key Host exists with a nonempty value
list and the lowercased filter string occurs in the lowercased first
value; in particular a record with no exactly-spelled Host header never
matches. -/
theorem c5_domain_predicate (r : CapturedRequest) (d : String) :
    matches_domain r d = true ↔
      ∃ v rest, r.request.headers.get "Host" = v :: rest ∧
        pyContains (pyLower d) (pyLower v) = true := by
  unfold matches_domain
  cases h : r.request.headers.get "Host" with
  | nil => simp [h]
  | cons v rest =>
    simp only [h]
    constructor
    · intro hc
      exact ⟨v, rest, rfl, hc⟩
    · rintro ⟨v2, rest2, he, hc⟩
      injection he with h1 h2
      subst h1
      exact hc

/-- Claim C6: absent or empty payloads decode to empty text; a payload
on which base64 decoding fails yields empty text; a well-formed payload
is decoded and its bytes read as UTF-8 with replacement of invalid
sequences.  The decoder is a total function, so nothing is raised to
the caller; the concrete conjuncts exhibit a successful decode, a
padding failure and a replacement substitution. -/
theorem c6_decode_body_contract :
    (∀ raw, raw = none ∨ raw = some "" → decode_body raw = "") ∧
    (∀ s, b64decode s = none → decode_body (some s) = "") ∧
    (∀ s bytes, b64decode s = some bytes →
      decode_body (some s) = String.mk (utf8Decode bytes)) ∧
    decode_body (some "SGVsbG8=") = "Hello" ∧
    decode_body (some "QQ") = "" ∧
    decode_body (some "/w==") = "�" := by
  refine ⟨?_, ?_, ?_, by decide, by decide, by decide⟩
  · rintro raw (rfl | rfl) <;> rfl
  · intro s h
    by_cases hs : s = ""
    · subst hs
      rfl
    · simp [decode_body, hs, h]
  · intro s bytes h
    by_cases hs : s = ""
    · subst hs
      have : bytes = [] := by
        have hb : b64decode "" = some [] := by decide
        rw [hb] at h
        injection h with h1
        exact h1.symm
      subst this
      rfl
    · simp [decode_body, hs, h]

theorem c6_decode_body_contract_witness :
    decode_body none = "" ∧ decode_body (some "QQ") = "" :=
  ⟨c6_decode_body_contract.1 none (Or.inl rfl),
   c6_decode_body_contract.2.1 "QQ" (by decide)⟩

/-- Claim C8: truncation is the last step of body formatting: with
truncateAt set to t, whenever the transformed result (the same
rendering with truncation disabled) exceeds t characters, exactly its
first t characters are kept and a marker naming the original
untransformed body's character count is appended; otherwise the
transformed result is returned unchanged. -/
theorem c8_truncation_last (jp : String → Option String) (body content_type : String)
    (o : FormatOptions) (t : Nat) (h : o.truncate = some t) :
    format_body jp body content_type o =
      (if t < (format_body jp body content_type { o with truncate := none }).length then
        (format_body jp body content_type { o with truncate := none }).take t ++
          "\n... (truncated, " ++ toString body.length ++ " total chars)"
      else format_body jp body content_type { o with truncate := none }) := by
  unfold format_body
  simp [h]

theorem c8_truncation_last_witness :
    format_body jpNone "abcdef" "" { pretty_print := false, truncate := some 3 } =
      "abc\n... (truncated, 6 total chars)" := by
  rw [c8_truncation_last jpNone "abcdef" ""
    { pretty_print := false, truncate := some 3 } 3 rfl]
  decide

/-- Claim C9: header rendering walks the stored entry order and each
entry contributes independently: entries outside a supplied allowlist
(compared case-insensitively) contribute nothing, the sensitive names
authorization, x-api-key, cookie and set-cookie (case-insensitive)
contribute a single masked line, and every other entry contributes one
name-prefixed line per value.  The concrete conjunct shows a
multi-value masked header collapsing to one masked line and a
multi-value plain header rendering one line per value. -/
theorem c9_header_rendering (headers : HttpHeaders) (fl : Option (List String)) :
    format_headers headers fl = (headers.root.map (renderHeaderEntry fl)).flatten ∧
    format_headers ⟨[("Cookie", ["a=1", "b=2"]), ("X-Req", ["u", "v"])]⟩ none =
      ["Cookie: ***", "X-Req: u", "X-Req: v"] := by
  constructor
  · unfold format_headers
    induction headers.root with
    | nil => rfl
    | cons e rest ih =>
      cases e with
      | mk name values =>
        rw [show formatHeaderLines fl ((name, values) :: rest) =
              (if (match fl with
                   | some l2 => !l2.any (fun f => pyLower f == pyLower name)
                   | none => false) then
                formatHeaderLines fl rest
              else
                (if maskNames.contains (pyLower name) then ["***"] else values).map
                    (fun v => name ++ ": " ++ v) ++
                  formatHeaderLines fl rest) from rfl,
          List.map_cons, List.flatten_cons, ← ih]
        unfold renderHeaderEntry headerAllowed sensitiveHeader
        cases fl with
        | none => simp [apply_ite (List.map (fun v => name ++ ": " ++ v))]
        | some l =>
          by_cases ha : l.any (fun f => pyLower f == pyLower name) = true
          · simp [ha, apply_ite (List.map (fun v => name ++ ": " ++ v))]
          · simp [ha, apply_ite (List.map (fun v => name ++ ": " ++ v))]
  · decide

theorem apply_filters_eq_filter (re : String → Option (String → Bool)) (now : Int)
    (l : List CapturedRequest) (fs : RequestFilters) :
    apply_filters re now l fs = l.filter (keepAll re now fs) := by
  rcases fs with ⟨lim, st, pp, dom, tn, tw⟩
  cases st <;> cases pp <;> cases dom <;> cases tw <;>
    simp only [apply_filters, List.filter_filter] <;>
    first
      | (refine ((List.filter_true l).symm).trans (List.filter_congr fun a ha => ?_)
         simp [keepAll])
      | (refine List.filter_congr fun a ha => ?_
         simp only [keepAll]
         simp [Bool.and_assoc, Bool.and_comm, Bool.and_left_comm])

theorem apply_filters_sublist (re : String → Option (String → Bool)) (now : Int)
    (l : List CapturedRequest) (fs : RequestFilters) :
    (apply_filters re now l fs).Sublist l := by
  rw [apply_filters_eq_filter]
  exact List.filter_sublist l

/-- Claim C3: with a limit of n present, the engine result is the
filter of the fetched list by the conjunction of all present
predicates, in unchanged order, truncated to its first n entries; in
particular the result is a subsequence of the fetched list, so the
limit step never reorders. -/
theorem c3_limit_after_filtering (re : String → Option (String → Bool)) (now : Int)
    (fetched : List CapturedRequest) (fs : RequestFilters) (n : Nat)
    (h : fs.limit = some n) :
    get_requests re now fetched fs = (fetched.filter (keepAll re now fs)).take n ∧
    (get_requests re now fetched fs).Sublist fetched := by
  have he := apply_filters_eq_filter re now fetched fs
  constructor
  · simp only [get_requests, h, he]
  · simp only [get_requests, h, he]
    exact (List.take_sublist _ _).trans (List.filter_sublist _)

theorem c3_limit_after_filtering_witness :
    get_requests reNone 0 [recA200, recB404, recC500] fsErrLimit1 = [recB404] := by
  rw [(c3_limit_after_filtering reNone 0 [recA200, recB404, recC500] fsErrLimit1 1
    rfl).1]
  decide

theorem mem_addSeen (s : List String) (j i : String) :
    i ∈ addSeen s j ↔ i ∈ s ∨ i = j := by
  unfold addSeen
  split
  · rename_i h
    constructor
    · exact Or.inl
    · rintro (hi | rfl)
      · exact hi
      · simpa using h
  · simp [or_comm]

theorem mem_foldl_addSeen (l : List CapturedRequest) :
    ∀ (s : List String) (i : String),
      (i ∈ l.foldl (fun acc r => addSeen acc r.id) s ↔
        i ∈ s ∨ i ∈ l.map CapturedRequest.id) := by
  induction l with
  | nil => simp
  | cons r rest ih =>
    intro s i
    simp only [List.foldl_cons, ih, mem_addSeen, List.map_cons, List.mem_cons]
    tauto

theorem tail_step_seen (re : String → Option (String → Bool)) (fs : RequestFilters)
    (now : Int) (seen : List String) (snapshot : List CapturedRequest) (i : String) :
    i ∈ (tail_step re fs now seen snapshot).1 ↔
      i ∈ seen ∨ i ∈ (tail_step re fs now seen snapshot).2.map CapturedRequest.id := by
  simp only [tail_step]
  exact mem_foldl_addSeen _ _ _

theorem tail_step_yields_sublist (re : String → Option (String → Bool))
    (fs : RequestFilters) (now : Int) (seen : List String)
    (snapshot : List CapturedRequest) :
    (tail_step re fs now seen snapshot).2.Sublist snapshot := by
  simp only [tail_step]
  exact (apply_filters_sublist re now _ fs).trans (List.filter_sublist snapshot)

theorem tail_step_yields_not_seen (re : String → Option (String → Bool))
    (fs : RequestFilters) (now : Int) (seen : List String)
    (snapshot : List CapturedRequest) (r : CapturedRequest)
    (h : r ∈ (tail_step re fs now seen snapshot).2) : r.id ∉ seen := by
  simp only [tail_step] at h
  have h2 : r ∈ snapshot.filter (fun q => !seen.contains q.id) :=
    (apply_filters_sublist re now _ fs).mem h
  have h3 := (List.mem_filter.mp h2).2
  simp at h3
  exact h3

theorem tail_loop_inv (re : String → Option (String → Bool)) (fs : RequestFilters)
    (initIds : List String) :
    ∀ (polls : List (Int × List CapturedRequest)) (seen : List String)
      (out : List CapturedRequest),
      (∀ p ∈ polls, (p.2.map CapturedRequest.id).Nodup) →
      (out.map CapturedRequest.id).Nodup →
      (∀ i ∈ out.map CapturedRequest.id, i ∈ seen) →
      (∀ i ∈ initIds, i ∈ seen) →
      (∀ i ∈ out.map CapturedRequest.id, i ∉ initIds) →
      (((polls.foldl
          (fun acc p =>
            let stepped := tail_step re fs p.1 acc.1 p.2
            (stepped.1, acc.2 ++ stepped.2))
          (seen, out)).2.map CapturedRequest.id).Nodup ∧
       (∀ i ∈ (polls.foldl
          (fun acc p =>
            let stepped := tail_step re fs p.1 acc.1 p.2
            (stepped.1, acc.2 ++ stepped.2))
          (seen, out)).2.map CapturedRequest.id, i ∉ initIds)) := by
  intro polls
  induction polls with
  | nil =>
    intro seen out hpolls hnd hsub hinit hdisj
    exact ⟨hnd, hdisj⟩
  | cons p rest ih =>
    intro seen out hpolls hnd hsub hinit hdisj
    simp only [List.foldl_cons]
    have hsnap : (p.2.map CapturedRequest.id).Nodup := hpolls p (List.mem_cons_self p rest)
    have hys_nd : ((tail_step re fs p.1 seen p.2).2.map CapturedRequest.id).Nodup :=
      ((tail_step_yields_sublist re fs p.1 seen p.2).map CapturedRequest.id).nodup hsnap
    have hys_notseen : ∀ i ∈ (tail_step re fs p.1 seen p.2).2.map CapturedRequest.id,
        i ∉ seen := by
      intro i hi
      obtain ⟨r, hr, rfl⟩ := List.mem_map.mp hi
      exact tail_step_yields_not_seen re fs p.1 seen p.2 r hr
    refine ih (tail_step re fs p.1 seen p.2).1 (out ++ (tail_step re fs p.1 seen p.2).2)
      (fun q hq => hpolls q (List.mem_cons_of_mem p hq)) ?_ ?_ ?_ ?_
    · rw [List.map_append, List.nodup_append]
      refine ⟨hnd, hys_nd, ?_⟩
      intro i hi hi2
      exact hys_notseen i hi2 (hsub i hi)
    · intro i hi
      rw [List.map_append, List.mem_append] at hi
      rw [tail_step_seen]
      rcases hi with hi | hi
      · exact Or.inl (hsub i hi)
      · exact Or.inr hi
    · intro i hi
      rw [tail_step_seen]
      exact Or.inl (hinit i hi)
    · intro i hi
      rw [List.map_append, List.mem_append] at hi
      rcases hi with hi | hi
      · exact hdisj i hi
      · exact fun hmem => hys_notseen i hi (hinit i hmem)

/-- Claim C2: provided every snapshot lists each capture id at most
once (the data model's id uniqueness), one continuous tailing run never
yields two records with the same id, and never yields any record whose
id was present in the initial snapshot: initial ids are recorded as
seen without being yielded, and every yielded record's id is added to
seen, suppressing any later reappearance. -/
theorem c2_tail_never_repeats (re : String → Option (String → Bool))
    (fs : RequestFilters) (initial : List CapturedRequest)
    (polls : List (Int × List CapturedRequest))
    (h : ∀ p ∈ polls, (p.2.map CapturedRequest.id).Nodup) :
    ((tail_run re fs initial polls).2.map CapturedRequest.id).Nodup ∧
    ∀ r ∈ (tail_run re fs initial polls).2, r.id ∉ initial.map CapturedRequest.id := by
  have h0 : ∀ i ∈ initial.map CapturedRequest.id,
      i ∈ initial.foldl (fun s r => addSeen s r.id) [] := by
    intro i hi
    rw [mem_foldl_addSeen]
    exact Or.inr hi
  have hinv := tail_loop_inv re fs (initial.map CapturedRequest.id) polls
    (initial.foldl (fun s r => addSeen s r.id) []) [] h (by simp) (by simp) h0 (by simp)
  simp only [tail_run]
  refine ⟨hinv.1, ?_⟩
  intro r hr
  exact hinv.2 r.id (List.mem_map.mpr ⟨r, hr, rfl⟩)

theorem c2_tail_never_repeats_witness :
    ((tail_run reNone fsNoFilters [recA200] [(0, [recA200, recB404])]).2.map
      CapturedRequest.id).Nodup ∧
    ∀ r ∈ (tail_run reNone fsNoFilters [recA200] [(0, [recA200, recB404])]).2,
      r.id ∉ [recA200].map CapturedRequest.id :=
  c2_tail_never_repeats reNone fsNoFilters [recA200] [(0, [recA200, recB404])]
    (by decide)

/-- Claim C10: in each poll iteration the seen set grows by exactly
the ids of the records yielded in that iteration, so a new record that
fails the filters is not marked seen and remains eligible later.  The
concrete conjunct runs two polls against an errors-only filter: the
capture is invisible while its response is missing, is not marked
seen, and is yielded once its response has arrived. -/
theorem c10_seen_tracks_yields :
    (∀ (re : String → Option (String → Bool)) (fs : RequestFilters) (now : Int)
      (seen : List String) (snapshot : List CapturedRequest) (i : String),
      i ∈ (tail_step re fs now seen snapshot).1 ↔
        i ∈ seen ∨ i ∈ (tail_step re fs now seen snapshot).2.map CapturedRequest.id) ∧
    (tail_run reNone fsErrOnly [] [(0, [recPendA]), (0, [recDoneA])]).2 = [recDoneA] := by
  constructor
  · exact tail_step_seen
  · decide

theorem containsL_eq_isSome (sep : List Char) (hsep : sep ≠ []) :
    ∀ l, containsL sep l = (afterFirst sep l).isSome := by
  intro l
  induction l with
  | nil => simp [containsL, afterFirst, List.isEmpty_iff, hsep]
  | cons c rest ih =>
    rw [containsL, afterFirst]
    by_cases hs : startsWithL sep (c :: rest) = true
    · simp [hs]
    · have hs2 : startsWithL sep (c :: rest) = false := by simpa using hs
      simp [hs2, ih]

theorem afterFirst_some (sep : List Char) :
    ∀ (l r : List Char), afterFirst sep l = some r →
      ∃ j, startsWithL sep (l.drop j) = true ∧
        (∀ k < j, startsWithL sep (l.drop k) = false) ∧
        r = l.drop (j + sep.length) := by
  intro l
  induction l with
  | nil => intro r h; simp [afterFirst] at h
  | cons c rest ih =>
    intro r h
    rw [afterFirst] at h
    by_cases hs : startsWithL sep (c :: rest) = true
    · rw [if_pos hs] at h
      injection h with h1
      refine ⟨0, ?_, ?_, ?_⟩
      · simpa using hs
      · intro k hk
        omega
      · simp [← h1]
    · rw [if_neg hs] at h
      obtain ⟨j, h1, h2, h3⟩ := ih r h
      refine ⟨j + 1, ?_, ?_, ?_⟩
      · simpa [List.drop_succ_cons] using h1
      · intro k hk
        cases k with
        | zero => simpa using hs
        | succ m =>
          rw [List.drop_succ_cons]
          exact h2 m (by omega)
      · rw [h3, show j + 1 + sep.length = j + sep.length + 1 from by omega,
          List.drop_succ_cons]

/-- Claim C7: body extraction returns the suffix after the first
CRLFCRLF separator when one occurs anywhere; only when none does, the
suffix after the first LFLF separator; and the whole message unchanged
when neither occurs.  The existential exhibits the leftmost occurrence
position.  The concrete conjunct is the example scenario from the
specification. -/
theorem c7_extract_http_body (raw : String) :
    (containsL ['\r', '\n', '\r', '\n'] raw.toList = true →
      ∃ j, startsWithL ['\r', '\n', '\r', '\n'] (raw.toList.drop j) = true ∧
        (∀ k < j, startsWithL ['\r', '\n', '\r', '\n'] (raw.toList.drop k) = false) ∧
        (extract_http_body raw).toList = raw.toList.drop (j + 4)) ∧
    (containsL ['\r', '\n', '\r', '\n'] raw.toList = false →
      containsL ['\n', '\n'] raw.toList = true →
      ∃ j, startsWithL ['\n', '\n'] (raw.toList.drop j) = true ∧
        (∀ k < j, startsWithL ['\n', '\n'] (raw.toList.drop k) = false) ∧
        (extract_http_body raw).toList = raw.toList.drop (j + 2)) ∧
    (containsL ['\r', '\n', '\r', '\n'] raw.toList = false →
      containsL ['\n', '\n'] raw.toList = false →
      extract_http_body raw = raw) ∧
    extract_http_body
        "HTTP/1.1 200 OK\r\nContent-Type: application/json\r\n\r\n\x7b\"key\":\"value\"\x7d" =
      "\x7b\"key\":\"value\"\x7d" := by
  refine ⟨?_, ?_, ?_, by decide⟩
  · intro hc
    rw [containsL_eq_isSome _ (by decide)] at hc
    obtain ⟨r, hr⟩ := Option.isSome_iff_exists.mp hc
    obtain ⟨j, h1, h2, h3⟩ := afterFirst_some _ _ _ hr
    refine ⟨j, h1, h2, ?_⟩
    rw [show extract_http_body raw = String.mk r from by
      simp only [extract_http_body, hr]]
    show r = raw.toList.drop (j + 4)
    simpa using h3
  · intro hc1 hc2
    cases hcr : afterFirst ['\r', '\n', '\r', '\n'] raw.toList with
    | some r =>
      rw [containsL_eq_isSome _ (by decide), hcr] at hc1
      simp at hc1
    | none =>
      rw [containsL_eq_isSome _ (by decide)] at hc2
      obtain ⟨r, hr⟩ := Option.isSome_iff_exists.mp hc2
      obtain ⟨j, h1, h2, h3⟩ := afterFirst_some _ _ _ hr
      refine ⟨j, h1, h2, ?_⟩
      rw [show extract_http_body raw = String.mk r from by
        simp only [extract_http_body, hcr, hr]]
      show r = raw.toList.drop (j + 2)
      simpa using h3
  · intro hc1 hc2
    cases hcr : afterFirst ['\r', '\n', '\r', '\n'] raw.toList with
    | some r =>
      rw [containsL_eq_isSome _ (by decide), hcr] at hc1
      simp at hc1
    | none =>
      cases hlf : afterFirst ['\n', '\n'] raw.toList with
      | some r =>
        rw [containsL_eq_isSome _ (by decide), hlf] at hc2
        simp at hc2
      | none => simp only [extract_http_body, hcr, hlf]

theorem c7_extract_http_body_witness :
    extract_http_body "no separator here" = "no separator here" :=
  (c7_extract_http_body "no separator here").2.2.1 (by decide) (by decide)
